import Mathlib

/-!
Shallow embedding of the two scripts of `sst/opencode-bench`:
`run_benchmarks.py` (the bounded-retry run orchestration loop) and
`visualize_instability.py` (the result-loading / aggregation / reporting
pipeline).  Pure data flow is translated function by function; the external
benchmark command is a parameter `exec : runIdx → attempt → Int` returning the
subprocess exit status, the process environment is a parameter
`env : String → Option String`, and the artifact files on disk are a parameter
`fs : String → Json`.  Scores are modelled as rationals (the JSON numbers the
scripts move around verbatim), and pandas/seaborn calls are modelled by their
documented data semantics.
-/

/-- One execution of the external benchmark command, as observed by
`run_command` in `run_benchmarks.py` (which returns `completed.returncode`). -/
structure AttemptOutcome where
  runIndex : Nat
  attemptIndex : Nat
  exitCode : Int
deriving DecidableEq

/-- The per-run output path `f"{args.output_prefix}-{run_idx}.json"` from
`main` in `run_benchmarks.py` (the output directory is an excluded filesystem
concern). -/
def outputFile (pref : String) (runIdx : Nat) : String :=
  pref ++ "-" ++ toString runIdx ++ ".json"

/-- The inner `for attempt in range(1, args.max_retries + 1)` loop of `main`
in `run_benchmarks.py`.  The argument list is the sequence of attempt numbers;
`last` carries Python's `returncode` variable across iterations.  Its initial
value `1` models the crash (`NameError`, process exit 1) Python would hit at
`sys.exit(returncode)` were the range empty (`max_retries ≤ 0`); it is never
reached when at least one attempt runs.  Returns the attempt outcomes in order
together with `.ok a` (the first attempt number `a` whose exit status was 0,
reaching the `break`) or `.error rc` (every attempt failed; `rc` is the final
attempt's return code, reaching the `for`-`else` branch). -/
def attemptLoop (exec : Nat → Nat → Int) (runIdx : Nat) :
    List Nat → Int → List AttemptOutcome × Except Int Nat
  | [], last => ([], .error last)
  | a :: rest, _ =>
    let rc := exec runIdx a
    if rc = 0 then ([⟨runIdx, a, rc⟩], .ok a)
    else
      let next := attemptLoop exec runIdx rest rc
      (⟨runIdx, a, rc⟩ :: next.1, next.2)

/-- Result of the outer run loop of `main` in `run_benchmarks.py`: either all
requested runs succeeded (`generated_files` returned), or a run exhausted its
attempts and `sys.exit(returncode)` fired with the files collected so far
still held in `generated_files`. -/
inductive OrchResult where
  | ok (files : List String)
  | aborted (files : List String) (exitCode : Int)
deriving DecidableEq

/-- The outer `for run_idx in range(1, args.runs + 1)` loop of `main` in
`run_benchmarks.py`.  The list argument is the sequence of run indices and
`acc` the `generated_files` accumulator.  Also returns the full trace of
attempt outcomes, in execution order. -/
def orchestrate (exec : Nat → Nat → Int) (M : Nat) (pref : String) :
    List Nat → List String → List AttemptOutcome × OrchResult
  | [], acc => ([], .ok acc)
  | i :: rest, acc =>
    match attemptLoop exec i (List.range' 1 M) 1 with
    | (tr, .error rc) => (tr, .aborted acc rc)
    | (tr, .ok _) =>
      let next := orchestrate exec M pref rest (acc ++ [outputFile pref i])
      (tr ++ next.1, next.2)

/-- The successful-artifact list a terminal state of the run loop holds. -/
def filesOf : OrchResult → List String
  | .ok files => files
  | .aborted files _ => files

/-- The configuration names `main` passes to `ensure_env_vars`. -/
def requiredVars : List String := ["OPENCODE_API_KEY", "GITHUB_TOKEN"]

/-- `[var for var in required_vars if not os.environ.get(var)]`: a variable is
missing when unset or set to the empty string (Python truthiness). -/
def missingVars (env : String → Option String) (required : List String) : List String :=
  required.filter fun v => (env v).getD "" == ""

/-- Python's `sep.join(parts)`. -/
def joinSep (sep : String) : List String → String
  | [] => ""
  | [x] => x
  | x :: y :: rest => x ++ sep ++ joinSep sep (y :: rest)

/-- The `SystemExit` message built by `ensure_env_vars`. -/
def missingMsg (missing : List String) : String :=
  "Missing required environment variable(s): " ++ joinSep ", " missing ++ ".\n" ++
    "Set them before running this script, e.g.\n" ++
    "  export OPENCODE_API_KEY=...\n" ++
    "  export GITHUB_TOKEN=...\n"

/-- `ensure_env_vars` from `run_benchmarks.py`: raises `SystemExit` with the
message listing every missing name when any required variable is absent. -/
def ensure_env_vars (env : String → Option String) (required : List String) :
    Except String Unit :=
  if missingVars env required = [] then .ok ()
  else .error (missingMsg (missingVars env required))

/-- JSON values as loaded by `json.load` in `visualize_instability.py`
(numbers as rationals). -/
inductive Json where
  | null
  | bool (b : Bool)
  | num (q : ℚ)
  | str (s : String)
  | arr (elems : List Json)
  | obj (fields : List (String × Json))

/-- The exception a dynamic access in `load_runs` raises: `KeyError(key)` for
a missing dictionary key, `TypeError` for indexing or iterating a value of the
wrong shape.  Neither carries the artifact path. -/
inductive JErr where
  | keyError (key : String)
  | typeError (msg : String)
deriving DecidableEq

/-- The message the Python interpreter prints for the uncaught exception
(quotation marks around the key elided). -/
def errMessage : JErr → String
  | .keyError k => "KeyError: " ++ k
  | .typeError m => "TypeError: " ++ m

/-- Dictionary subscript `j[k]` on a parsed JSON value. -/
def getKey (j : Json) (k : String) : Except JErr Json :=
  match j with
  | .obj fields =>
    match fields.lookup k with
    | some v => .ok v
    | none => .error (.keyError k)
  | _ => .error (.typeError "value is not subscriptable by string")

/-- Shape expectation for iterating `data["runs"]` / `run["scores"]`. -/
def asArr : Json → Except JErr (List Json)
  | .arr xs => .ok xs
  | _ => .error (.typeError "value is not a list")

/-- Shape expectation for the string fields the records carry. -/
def asStr : Json → Except JErr String
  | .str s => .ok s
  | _ => .error (.typeError "value is not a string")

/-- Shape expectation for the numeric fields the records carry. -/
def asNum : Json → Except JErr ℚ
  | .num q => .ok q
  | _ => .error (.typeError "value is not a number")

/-- One element of the `runs` list `load_runs` builds. -/
structure RunRecord where
  file : String
  run_index_in_file : Nat
  agent : String
  finalScore : ℚ
  scores : List (String × ℚ)
deriving DecidableEq

/-- Python dict assignment `d[k] = v`: overwrite in place when the key is
already present (keeping its first-insertion position), append otherwise. -/
def dictInsert (d : List (String × ℚ)) (k : String) (v : ℚ) : List (String × ℚ) :=
  if d.any fun p => p.1 == k then
    d.map fun p => if p.1 == k then (k, v) else p
  else d ++ [(k, v)]

/-- The dict comprehension
`{score["assignment"]["name"]: score["averageScore"] for score in run["scores"]}`
folded over the already-extracted (name, averageScore) pairs. -/
def buildScores (entries : List (String × ℚ)) : List (String × ℚ) :=
  entries.foldl (fun d p => dictInsert d p.1 p.2) []

/-- The accesses one comprehension element performs, in evaluation order:
key expression `score["assignment"]["name"]`, then value expression
`score["averageScore"]`. -/
def parseScore (s : Json) : Except JErr (String × ℚ) :=
  match getKey s "assignment" with
  | .error e => .error e
  | .ok a =>
    match getKey a "name" with
    | .error e => .error e
    | .ok n =>
      match asStr n with
      | .error e => .error e
      | .ok name =>
        match getKey s "averageScore" with
        | .error e => .error e
        | .ok v =>
          match asNum v with
          | .error e => .error e
          | .ok q => .ok (name, q)

/-- Left-to-right evaluation of the score comprehension, aborting at the
first failing element. -/
def parseScores : List Json → Except JErr (List (String × ℚ))
  | [] => .ok []
  | s :: rest =>
    match parseScore s with
    | .error e => .error e
    | .ok p =>
      match parseScores rest with
      | .error e => .error e
      | .ok ps => .ok (p :: ps)

/-- The dict literal `load_runs` appends for one element of `data["runs"]`,
fields evaluated in source order. -/
def parseRun (file : String) (idx : Nat) (run : Json) : Except JErr RunRecord :=
  match getKey run "model" with
  | .error e => .error e
  | .ok m =>
    match asStr m with
    | .error e => .error e
    | .ok agent =>
      match getKey run "summary" with
      | .error e => .error e
      | .ok summary =>
        match getKey summary "finalScore" with
        | .error e => .error e
        | .ok fj =>
          match asNum fj with
          | .error e => .error e
          | .ok fscore =>
            match getKey run "scores" with
            | .error e => .error e
            | .ok sj =>
              match asArr sj with
              | .error e => .error e
              | .ok scoresArr =>
                match parseScores scoresArr with
                | .error e => .error e
                | .ok entries => .ok ⟨file, idx, agent, fscore, buildScores entries⟩

/-- `for idx, run in enumerate(data["runs"])`, starting at index `idx`. -/
def parseRunList (file : String) : Nat → List Json → Except JErr (List RunRecord)
  | _, [] => .ok []
  | idx, r :: rest =>
    match parseRun file idx r with
    | .error e => .error e
    | .ok rec0 =>
      match parseRunList file (idx + 1) rest with
      | .error e => .error e
      | .ok recs => .ok (rec0 :: recs)

/-- Loading one artifact: `data["runs"]` then the per-element record build. -/
def loadFile (f : String × Json) : Except JErr (List RunRecord) :=
  match getKey f.2 "runs" with
  | .error e => .error e
  | .ok rj =>
    match asArr rj with
    | .error e => .error e
    | .ok runsJ => parseRunList f.1 0 runsJ

/-- `load_runs` from `visualize_instability.py`, over (file name, parsed
content) pairs; any exception aborts the whole load with nothing emitted. -/
def load_runs : List (String × Json) → Except JErr (List RunRecord)
  | [] => .ok []
  | f :: rest =>
    match loadFile f with
    | .error e => .error e
    | .ok recs =>
      match load_runs rest with
      | .error e => .error e
      | .ok more => .ok (recs ++ more)

/-- One row of the long-form DataFrame `melt_scores` builds. -/
structure LongRecord where
  agent : String
  file : String
  assignment : String
  averageScore : ℚ
  finalScore : ℚ
deriving DecidableEq

/-- `melt_scores` from `visualize_instability.py`. -/
def melt_scores (runs : List RunRecord) : List LongRecord :=
  runs.flatMap fun r => r.scores.map fun p => ⟨r.agent, r.file, p.1, p.2, r.finalScore⟩

/-- Insertion step of the sort modelling `sort_values` / `sorted` /
`sort_index` (pandas' quicksort is unstable; every property proved below is
insensitive to the order of key ties). -/
def insertByKey {α : Type} (key : α → String) (x : α) : List α → List α
  | [] => [x]
  | y :: ys => if key x ≤ key y then x :: y :: ys else y :: insertByKey key x ys

/-- Sort a list ascending by a string key. -/
def sortByKey {α : Type} (key : α → String) : List α → List α
  | [] => []
  | x :: xs => insertByKey key x (sortByKey key xs)

/-- `drop_duplicates()` / `.unique()`: keep the first occurrence of each
element (structurally: dedup the tail, then drop later copies of the head). -/
def dedupFirst {α : Type} [DecidableEq α] : List α → List α
  | [] => []
  | x :: xs => x :: ((dedupFirst xs).filter fun y => y != x)

/-- `sorted(df["agent"].unique())` in `plot_instability`. -/
def agentsOf (df : List LongRecord) : List String :=
  sortByKey id (dedupFirst (df.map fun l => l.agent))

/-- `agent_df = df[df["agent"] == agent]`. -/
def agentRows (df : List LongRecord) (a : String) : List LongRecord :=
  df.filter fun l => l.agent == a

/-- `agent_df[["file", "finalScore"]].drop_duplicates().sort_values("file")`:
the per-agent final-score series fed to the bar plot. -/
def finalScoreSeries (df : List LongRecord) (a : String) : List (String × ℚ) :=
  sortByKey (fun p => p.1) (dedupFirst ((agentRows df a).map fun l => (l.file, l.finalScore)))

/-- The pivot's row index after `.reindex(sorted(agent_df["assignment"].unique()))`. -/
def gridRows (df : List LongRecord) (a : String) : List String :=
  sortByKey id (dedupFirst ((agentRows df a).map fun l => l.assignment))

/-- The pivot's column index after `.sort_index(axis=1)`. -/
def gridCols (df : List LongRecord) (a : String) : List String :=
  sortByKey id (dedupFirst ((agentRows df a).map fun l => l.file))

/-- The `averageScore` values grouped into one pivot cell. -/
def cellEntries (df : List LongRecord) (a r c : String) : List ℚ :=
  (df.filter fun l => l.agent == a && l.assignment == r && l.file == c).map
    fun l => l.averageScore

/-- One cell of `pivot_table(index="assignment", columns="file",
values="averageScore", aggfunc="mean")`: the mean of the matching values,
`none` (NaN) when no record matches. -/
def gridCell (df : List LongRecord) (a r c : String) : Option ℚ :=
  match cellEntries df a r c with
  | [] => none
  | vs => some (vs.sum / (vs.length : ℚ))

/-- Outcome of `main` in `visualize_instability.py` on a given list of
(artifact name, content) pairs: an uncaught load exception, the
`SystemExit("No runs found in the provided files.")` on an empty DataFrame,
or success handing the long-form dataset to the plotting sink. -/
inductive VizOutcome where
  | parseFailure (e : JErr)
  | emptyDataset (msg : String)
  | success (df : List LongRecord)
deriving DecidableEq

/-- The load → melt → empty-check pipeline of `main` in
`visualize_instability.py` (CLI flag parsing excluded). -/
def vizMain (files : List (String × Json)) : VizOutcome :=
  match load_runs files with
  | .error e => .parseFailure e
  | .ok runs =>
    let df := melt_scores runs
    if df = [] then .emptyDataset "No runs found in the provided files." else .success df

/-- Process exit status of `visualize_instability.py`: 1 for an uncaught
exception, 1 for `SystemExit` carrying a message, 0 on success. -/
def vizExitCode : VizOutcome → Int
  | .parseFailure _ => 1
  | .emptyDataset _ => 1
  | .success _ => 0

/-- Terminal state of `main` in `run_benchmarks.py`: the `SystemExit` from
`ensure_env_vars`, the `sys.exit(returncode)` after exhausted retries, or a
normal return (with the visualization subprocess exit code when that step
ran — its failure is only printed). -/
inductive OrchExit where
  | configError (msg : String)
  | exhausted (files : List String) (exitCode : Int)
  | completed (files : List String) (vizResult : Option Int)
deriving DecidableEq

/-- Process exit status of `run_benchmarks.py` in each terminal state. -/
def orchExitCode : OrchExit → Int
  | .configError _ => 1
  | .exhausted _ rc => rc
  | .completed _ _ => 0

/-- `main` of `run_benchmarks.py` end to end: environment validation, the run
loop, then the optional visualization subprocess (`fs` gives the content of
each generated artifact at visualization time; a missing script only prints
and skips). -/
def run_benchmarks_main (env : String → Option String) (exec : Nat → Nat → Int)
    (runs maxRetries : Nat) (pref : String) (visualize scriptExists : Bool)
    (fs : String → Json) : List AttemptOutcome × OrchExit :=
  match ensure_env_vars env requiredVars with
  | .error msg => ([], .configError msg)
  | .ok _ =>
    let r := orchestrate exec maxRetries pref (List.range' 1 runs) []
    match r.2 with
    | .aborted files rc => (r.1, .exhausted files rc)
    | .ok files =>
      if visualize && scriptExists then
        (r.1, .completed files (some (vizExitCode (vizMain (files.map fun f => (f, fs f))))))
      else
        (r.1, .completed files none)

deriving instance DecidableEq for Except

/-- Every outcome the attempt loop of one run records carries that run's
index. -/
theorem attemptLoop_trace_runIndex (exec : Nat → Nat → Int) (i : Nat) :
    ∀ (attempts : List Nat) (last : Int),
      ∀ o ∈ (attemptLoop exec i attempts last).1, o.runIndex = i := by
  intro attempts
  induction attempts with
  | nil => intro last o ho; simp [attemptLoop] at ho
  | cons a rest ih =>
    intro last o ho
    simp only [attemptLoop] at ho
    by_cases h : exec i a = 0
    · simp only [if_pos h, List.mem_singleton] at ho
      subst ho; rfl
    · simp only [if_neg h, List.mem_cons] at ho
      rcases ho with rfl | ho
      · rfl
      · exact ih (exec i a) o ho

/-- When every listed attempt fails, the loop records them all and falls
through to the `else` branch carrying the final return code. -/
theorem attemptLoop_all_fail (exec : Nat → Nat → Int) (i : Nat) :
    ∀ (attempts : List Nat) (last : Int), (∀ a ∈ attempts, exec i a ≠ 0) →
      attemptLoop exec i attempts last =
        (attempts.map fun a => ⟨i, a, exec i a⟩,
         .error (attempts.foldl (fun _ a => exec i a) last)) := by
  intro attempts
  induction attempts with
  | nil => intro last _; rfl
  | cons a rest ih =>
    intro last h
    have ha := h a (by simp)
    simp only [attemptLoop, if_neg ha, List.map_cons, List.foldl_cons]
    rw [ih (exec i a) (fun b hb => h b (by simp [hb]))]

/-- Folding "remember the current return code" over the attempt numbers
1..M yields the M-th attempt's code. -/
theorem foldl_range'_last (g : Nat → Int) (last : Int) (M : Nat) (hM : 1 ≤ M) :
    (List.range' 1 M).foldl (fun _ a => g a) last = g M := by
  obtain ⟨m, rfl⟩ : ∃ m, M = m + 1 := ⟨M - 1, by omega⟩
  rw [List.range'_concat, List.foldl_append]
  simp [Nat.add_comm]

/-- An exhausted run: all M attempts fail, the trace lists attempts 1..M in
order, and the loop exits with the M-th attempt's return code. -/
theorem attemptLoop_exhaust (exec : Nat → Nat → Int) (i M : Nat) (last : Int)
    (hM : 1 ≤ M) (hfail : ∀ a, 1 ≤ a → a ≤ M → exec i a ≠ 0) :
    attemptLoop exec i (List.range' 1 M) last =
      ((List.range' 1 M).map fun a => ⟨i, a, exec i a⟩, .error (exec i M)) := by
  rw [attemptLoop_all_fail]
  · rw [foldl_range'_last _ _ _ hM]
  · intro a ha
    rw [List.mem_range'_1] at ha
    exact hfail a ha.1 (by omega)

/-- A run that fails on every attempt before `a0` and succeeds at `a0`
records exactly the attempts up to `a0` and breaks out successfully. -/
theorem attemptLoop_first_success (exec : Nat → Nat → Int) (i : Nat) :
    ∀ (pre : List Nat) (a0 : Nat) (post : List Nat) (last : Int),
      (∀ a ∈ pre, exec i a ≠ 0) → exec i a0 = 0 →
      attemptLoop exec i (pre ++ a0 :: post) last =
        (pre.map (fun a => ⟨i, a, exec i a⟩) ++ [⟨i, a0, 0⟩], .ok a0) := by
  intro pre
  induction pre with
  | nil =>
    intro a0 post last _ h0
    simp [attemptLoop, h0]
  | cons a rest ih =>
    intro a0 post last h h0
    have ha := h a (by simp)
    simp only [List.cons_append, attemptLoop, if_neg ha, List.map_cons, List.append_eq]
    rw [ih a0 post (exec i a) (fun b hb => h b (by simp [hb])) h0]

/-- With every invocation succeeding, each run takes exactly one attempt and
the run loop appends one artifact path per run index, in order. -/
theorem orchestrate_all_success (exec : Nat → Nat → Int) (M : Nat) (pref : String)
    (hM : 1 ≤ M) (hexec : ∀ i a, exec i a = 0) :
    ∀ (idxs : List Nat) (acc : List String),
      orchestrate exec M pref idxs acc =
        (idxs.map fun j => ⟨j, 1, 0⟩, .ok (acc ++ idxs.map (outputFile pref))) := by
  intro idxs
  induction idxs with
  | nil => intro acc; simp [orchestrate]
  | cons i rest ih =>
    intro acc
    have hcur : attemptLoop exec i (List.range' 1 M) 1 = ([⟨i, 1, 0⟩], .ok 1) := by
      obtain ⟨m, rfl⟩ : ∃ m, M = m + 1 := ⟨M - 1, by omega⟩
      have hsplit : List.range' 1 (m + 1) = [] ++ 1 :: List.range' 2 m := by
        simp [List.range'_succ]
      rw [hsplit, attemptLoop_first_success exec i [] 1 (List.range' 2 m) 1 (by simp)
        (hexec i 1)]
      simp
    simp only [orchestrate, hcur]
    rw [ih]
    simp

/-- C1: for every target success count R ≥ 1 and attempt bound M ≥ 1, if every
external command invocation exits with status 0, the run loop of
`run_benchmarks.py` returns exactly R artifact paths, named by ascending run
index 1..R, and its attempt trace shows exactly one attempt (attempt 1,
exit 0) per run. -/
theorem orchestrator_all_success_runs (exec : Nat → Nat → Int) (R M : Nat) (pref : String)
    (hR : 1 ≤ R) (hM : 1 ≤ M) (hexec : ∀ i a, exec i a = 0) :
    orchestrate exec M pref (List.range' 1 R) [] =
      ((List.range' 1 R).map fun j => ⟨j, 1, 0⟩,
       .ok ((List.range' 1 R).map (outputFile pref))) ∧
    ((List.range' 1 R).map (outputFile pref)).length = R ∧
    ((List.range' 1 R).map fun j => (⟨j, 1, 0⟩ : AttemptOutcome)).length = R := by
  refine ⟨?_, by simp, by simp⟩
  rw [orchestrate_all_success exec M pref hM hexec]
  simp

/-- Witness for C1: three runs with bound two, command always succeeding. -/
theorem orchestrator_all_success_runs_witness :
    orchestrate (fun _ _ => 0) 2 "bench" (List.range' 1 3) [] =
      ((List.range' 1 3).map fun j => ⟨j, 1, 0⟩,
       .ok ((List.range' 1 3).map (outputFile "bench"))) ∧
    ((List.range' 1 3).map (outputFile "bench")).length = 3 ∧
    ((List.range' 1 3).map fun j => (⟨j, 1, 0⟩ : AttemptOutcome)).length = 3 :=
  orchestrator_all_success_runs (fun _ _ => 0) 3 2 "bench" (by decide) (by decide)
    (fun _ _ => rfl)

/-- Unfolding the run loop at a run whose attempt loop exhausted. -/
theorem orchestrate_cons_error (exec : Nat → Nat → Int) (M : Nat) (pref : String)
    (i : Nat) (rest : List Nat) (acc : List String) (tr : List AttemptOutcome) (rc : Int)
    (h : attemptLoop exec i (List.range' 1 M) 1 = (tr, .error rc)) :
    orchestrate exec M pref (i :: rest) acc = (tr, .aborted acc rc) := by
  simp only [orchestrate, h]

/-- Unfolding the run loop at a run whose attempt loop succeeded. -/
theorem orchestrate_cons_ok (exec : Nat → Nat → Int) (M : Nat) (pref : String)
    (i : Nat) (rest : List Nat) (acc : List String) (tr : List AttemptOutcome) (k : Nat)
    (h : attemptLoop exec i (List.range' 1 M) 1 = (tr, .ok k)) :
    orchestrate exec M pref (i :: rest) acc =
      (tr ++ (orchestrate exec M pref rest (acc ++ [outputFile pref i])).1,
       (orchestrate exec M pref rest (acc ++ [outputFile pref i])).2) := by
  simp only [orchestrate, h]

/-- `generated_files` only grows: the terminal file list extends the
accumulator it started from. -/
theorem orchestrate_files_extend (exec : Nat → Nat → Int) (M : Nat) (pref : String) :
    ∀ (idxs : List Nat) (acc : List String),
      ∃ suffix, filesOf (orchestrate exec M pref idxs acc).2 = acc ++ suffix := by
  intro idxs
  induction idxs with
  | nil => intro acc; exact ⟨[], by simp [orchestrate, filesOf]⟩
  | cons i rest ih =>
    intro acc
    rcases hcur : attemptLoop exec i (List.range' 1 M) 1 with ⟨tr, res⟩
    cases res with
    | error rc =>
      exact ⟨[], by
        rw [orchestrate_cons_error exec M pref i rest acc tr rc hcur]
        simp [filesOf]⟩
    | ok k =>
      obtain ⟨suf, hsuf⟩ := ih (acc ++ [outputFile pref i])
      refine ⟨outputFile pref i :: suf, ?_⟩
      rw [orchestrate_cons_ok exec M pref i rest acc tr k hcur]
      simpa using hsuf

/-- A run with a successful attempt inside the bound always breaks out of the
attempt loop successfully. -/
theorem attemptLoop_ok_of_mem (exec : Nat → Nat → Int) (i : Nat) :
    ∀ (attempts : List Nat) (last : Int), (∃ a ∈ attempts, exec i a = 0) →
      ∃ tr k, attemptLoop exec i attempts last = (tr, .ok k) := by
  intro attempts
  induction attempts with
  | nil => intro last h; simp at h
  | cons a rest ih =>
    intro last h
    by_cases ha : exec i a = 0
    · exact ⟨[⟨i, a, exec i a⟩], a, by simp [attemptLoop, ha]⟩
    · obtain ⟨b, hb, hb0⟩ := h
      rcases List.mem_cons.1 hb with rfl | hb
      · exact absurd hb0 ha
      · obtain ⟨tr, k, htr⟩ := ih (exec i a) ⟨b, hb, hb0⟩
        exact ⟨⟨i, a, exec i a⟩ :: tr, k, by simp [attemptLoop, ha, htr]⟩

/-- A block of runs that all eventually succeed is consumed whole: the loop
then continues on the remaining run indices, and every attempt recorded so far
belongs to the consumed block. -/
theorem orchestrate_append (exec : Nat → Nat → Int) (M : Nat) (pref : String) :
    ∀ (l₁ l₂ : List Nat) (acc : List String),
      (∀ j ∈ l₁, ∃ a ∈ List.range' 1 M, exec j a = 0) →
      ∃ tr₁ acc₂,
        (∀ o ∈ tr₁, o.runIndex ∈ l₁) ∧
        orchestrate exec M pref (l₁ ++ l₂) acc =
          (tr₁ ++ (orchestrate exec M pref l₂ acc₂).1,
           (orchestrate exec M pref l₂ acc₂).2) := by
  intro l₁
  induction l₁ with
  | nil => intro l₂ acc _; exact ⟨[], acc, by simp, by simp⟩
  | cons j rest ih =>
    intro l₂ acc hsucc
    obtain ⟨tr, k, htr⟩ :=
      attemptLoop_ok_of_mem exec j (List.range' 1 M) 1 (hsucc j (by simp))
    obtain ⟨tr₁, acc₂, hmem, heq⟩ :=
      ih l₂ (acc ++ [outputFile pref j]) (fun x hx => hsucc x (by simp [hx]))
    refine ⟨tr ++ tr₁, acc₂, ?_, ?_⟩
    · intro o ho
      rcases List.mem_append.1 ho with ho | ho
      · have h1 : o.runIndex = j :=
          attemptLoop_trace_runIndex exec j (List.range' 1 M) 1 o (by rw [htr]; exact ho)
        simp [h1]
      · simp [hmem o ho]
    · rw [List.cons_append, orchestrate_cons_ok exec M pref j (rest ++ l₂) acc tr k htr, heq]
      simp

/-- The run indices 1..R split at a chosen run i. -/
theorem range'_split_at (R i : Nat) (h1 : 1 ≤ i) (hR : i ≤ R) :
    List.range' 1 R = List.range' 1 (i - 1) ++ i :: List.range' (i + 1) (R - i) := by
  have h2 : i :: List.range' (i + 1) (R - i) = List.range' i (R - i + 1) :=
    (List.range'_succ i (R - i) 1).symm
  rw [h2]
  have happ := List.range'_append 1 (i - 1) (R - i + 1) 1
  have e1 : 1 + 1 * (i - 1) = i := by omega
  have e2 : R - i + 1 + (i - 1) = R := by omega
  rw [e1, e2] at happ
  exact happ.symm

/-- Core abort behaviour: with configuration present, runs before i all
eventually succeeding and run i failing all M attempts, `main` stops at run i
with the M-th attempt's exit code. -/
theorem main_exhausted_at (env : String → Option String) (exec : Nat → Nat → Int)
    (R M i : Nat) (pref : String) (viz se : Bool) (fs : String → Json)
    (henv : missingVars env requiredVars = [])
    (hM : 1 ≤ M) (hi1 : 1 ≤ i) (hiR : i ≤ R)
    (hearlier : ∀ j, 1 ≤ j → j < i → ∃ a, 1 ≤ a ∧ a ≤ M ∧ exec j a = 0)
    (hfail : ∀ a, 1 ≤ a → a ≤ M → exec i a ≠ 0) :
    ∃ tr files,
      run_benchmarks_main env exec R M pref viz se fs = (tr, .exhausted files (exec i M)) ∧
      (∀ o ∈ tr, o.runIndex ≤ i) ∧
      orchExitCode (.exhausted files (exec i M)) = exec i M := by
  obtain ⟨tr₁, acc₂, hmem, heq⟩ :=
    orchestrate_append exec M pref (List.range' 1 (i - 1))
      (i :: List.range' (i + 1) (R - i)) []
      (by
        intro j hj
        rw [List.mem_range'_1] at hj
        obtain ⟨a, h1a, haM, h0⟩ := hearlier j hj.1 (by omega)
        exact ⟨a, by rw [List.mem_range'_1]; omega, h0⟩)
  rw [← range'_split_at R i hi1 hiR] at heq
  have hex := attemptLoop_exhaust exec i M 1 hM hfail
  rw [orchestrate_cons_error exec M pref i (List.range' (i + 1) (R - i)) acc₂ _ _ hex] at heq
  refine ⟨tr₁ ++ (List.range' 1 M).map fun a => ⟨i, a, exec i a⟩, acc₂, ?_, ?_, rfl⟩
  · simp only [run_benchmarks_main, ensure_env_vars, henv, if_pos]
    rw [heq]
  · intro o ho
    rcases List.mem_append.1 ho with ho | ho
    · have h1 := hmem o ho
      rw [List.mem_range'_1] at h1
      omega
    · obtain ⟨a, _, rfl⟩ := List.mem_map.1 ho
      exact Nat.le_refl i

/-- C2: if every run before run i eventually succeeds and all M attempts of
run i fail, `run_benchmarks.py` aborts right after run i: no attempt of any
run with a higher index appears in the trace, and the process exit code is
the M-th (final) failed attempt's exit code. -/
theorem exhausted_run_aborts (env : String → Option String) (exec : Nat → Nat → Int)
    (R M i : Nat) (pref : String) (viz se : Bool) (fs : String → Json)
    (henv : missingVars env requiredVars = [])
    (hM : 1 ≤ M) (hi1 : 1 ≤ i) (hiR : i ≤ R)
    (hearlier : ∀ j, 1 ≤ j → j < i → ∃ a, 1 ≤ a ∧ a ≤ M ∧ exec j a = 0)
    (hfail : ∀ a, 1 ≤ a → a ≤ M → exec i a ≠ 0) :
    ∃ tr files,
      run_benchmarks_main env exec R M pref viz se fs = (tr, .exhausted files (exec i M)) ∧
      (∀ o ∈ tr, o.runIndex ≤ i) ∧
      orchExitCode (.exhausted files (exec i M)) = exec i M :=
  main_exhausted_at env exec R M i pref viz se fs henv hM hi1 hiR hearlier hfail

/-- Witness for C2: three runs, bound two; run 2 always exits 3, runs 1 and 3
would succeed.  The orchestration stops at run 2 and propagates exit code 3. -/
theorem exhausted_run_aborts_witness :
    ∃ tr files,
      run_benchmarks_main (fun _ => some "x") (fun i _ => if i = 2 then 3 else 0) 3 2 "bench"
          false false (fun _ => Json.null) = (tr, .exhausted files 3) ∧
      (∀ o ∈ tr, o.runIndex ≤ 2) ∧
      orchExitCode (.exhausted files 3) = 3 :=
  exhausted_run_aborts (fun _ => some "x") (fun i _ => if i = 2 then 3 else 0) 3 2 2 "bench"
    false false (fun _ => Json.null) (by decide) (by decide) (by decide) (by decide)
    (fun j h1 h2 => ⟨1, le_refl 1, by omega, by
      have hj : j = 1 := by omega
      subst hj; rfl⟩)
    (fun a _ _ => by norm_num)

/-- C8: if run i's command fails exactly k times (k < M) and succeeds on
attempt k+1, the attempt loop records exactly k+1 attempts, the run's
artifact path joins `generated_files`, and the run loop continues on the
remaining run indices exactly as it would have started on them. -/
theorem retry_then_success (exec : Nat → Nat → Int) (M i k : Nat) (pref : String)
    (rest : List Nat) (acc : List String)
    (hkM : k + 1 ≤ M)
    (hf : ∀ a, 1 ≤ a → a ≤ k → exec i a ≠ 0) (hs : exec i (k + 1) = 0) :
    attemptLoop exec i (List.range' 1 M) 1 =
      ((List.range' 1 (k + 1)).map fun a => ⟨i, a, exec i a⟩, .ok (k + 1)) ∧
    ((List.range' 1 (k + 1)).map fun a => (⟨i, a, exec i a⟩ : AttemptOutcome)).length = k + 1 ∧
    orchestrate exec M pref (i :: rest) acc =
      (((List.range' 1 (k + 1)).map fun a => ⟨i, a, exec i a⟩) ++
         (orchestrate exec M pref rest (acc ++ [outputFile pref i])).1,
       (orchestrate exec M pref rest (acc ++ [outputFile pref i])).2) ∧
    outputFile pref i ∈ filesOf (orchestrate exec M pref (i :: rest) acc).2 := by
  have hloop : attemptLoop exec i (List.range' 1 M) 1 =
      ((List.range' 1 (k + 1)).map fun a => ⟨i, a, exec i a⟩, .ok (k + 1)) := by
    have hsplit := range'_split_at M (k + 1) (by omega) hkM
    simp only [Nat.add_sub_cancel] at hsplit
    rw [hsplit, attemptLoop_first_success exec i (List.range' 1 k) (k + 1)
      (List.range' (k + 1 + 1) (M - (k + 1))) 1
      (by
        intro a ha
        rw [List.mem_range'_1] at ha
        exact hf a ha.1 (by omega))
      hs]
    rw [List.range'_concat 1 k]
    have e1 : 1 + 1 * k = k + 1 := by omega
    rw [e1, List.map_append]
    simp [hs]
  have hcons := orchestrate_cons_ok exec M pref i rest acc _ _ hloop
  refine ⟨hloop, by simp, hcons, ?_⟩
  obtain ⟨suf, hsuf⟩ := orchestrate_files_extend exec M pref rest (acc ++ [outputFile pref i])
  rw [hcons]
  simp only [filesOf] at hsuf ⊢
  rw [hsuf]
  simp

/-- Witness for C8: run 1 fails once with exit 7 and succeeds on attempt 2
(bound 3); run 2 follows. -/
theorem retry_then_success_witness :
    attemptLoop (fun _ a => if a ≤ 1 then 7 else 0) 1 (List.range' 1 3) 1 =
      ((List.range' 1 2).map fun a =>
        ⟨1, a, (fun (_ a : Nat) => if a ≤ 1 then (7:Int) else 0) 1 a⟩, .ok 2) ∧
    ((List.range' 1 2).map fun a =>
      (⟨1, a, (fun (_ a : Nat) => if a ≤ 1 then (7:Int) else 0) 1 a⟩ : AttemptOutcome)).length = 2 ∧
    orchestrate (fun _ a => if a ≤ 1 then 7 else 0) 3 "bench" (1 :: [2]) [] =
      (((List.range' 1 2).map fun a =>
          ⟨1, a, (fun (_ a : Nat) => if a ≤ 1 then (7:Int) else 0) 1 a⟩) ++
         (orchestrate (fun _ a => if a ≤ 1 then 7 else 0) 3 "bench" [2]
           ([] ++ [outputFile "bench" 1])).1,
       (orchestrate (fun _ a => if a ≤ 1 then 7 else 0) 3 "bench" [2]
         ([] ++ [outputFile "bench" 1])).2) ∧
    outputFile "bench" 1 ∈
      filesOf (orchestrate (fun _ a => if a ≤ 1 then 7 else 0) 3 "bench" (1 :: [2]) []).2 :=
  retry_then_success (fun _ a => if a ≤ 1 then 7 else 0) 3 1 1 "bench" [2] []
    (by decide)
    (fun a h1 h2 => by
      have ha : a = 1 := by omega
      subst ha; norm_num)
    (by norm_num)

/-- Every member of a joined list appears verbatim inside the joined string. -/
theorem joinSep_split (sep : String) :
    ∀ (l : List String) (v : String), v ∈ l →
      ∃ p q, joinSep sep l = p ++ v ++ q := by
  intro l
  induction l with
  | nil => intro v hv; simp at hv
  | cons x rest ih =>
    intro v hv
    cases rest with
    | nil =>
      rcases List.mem_singleton.1 hv with rfl
      refine ⟨"", "", ?_⟩
      show joinSep sep [v] = "" ++ v ++ ""
      rw [String.append_empty]
      rfl
    | cons y rest2 =>
      rcases List.mem_cons.1 hv with rfl | hv2
      · refine ⟨"", sep ++ joinSep sep (y :: rest2), ?_⟩
        show joinSep sep (v :: y :: rest2) = "" ++ v ++ (sep ++ joinSep sep (y :: rest2))
        simp [joinSep, String.append_assoc]
      · obtain ⟨p, q, hpq⟩ := ih v hv2
        refine ⟨x ++ sep ++ p, q, ?_⟩
        show joinSep sep (x :: y :: rest2) = x ++ sep ++ p ++ v ++ q
        simp [joinSep, hpq, String.append_assoc]

/-- With a required configuration value absent, `main` stops inside
`ensure_env_vars` before any run. -/
theorem main_config_error (env : String → Option String) (exec : Nat → Nat → Int)
    (R M : Nat) (pref : String) (viz se : Bool) (fs : String → Json)
    (h : missingVars env requiredVars ≠ []) :
    run_benchmarks_main env exec R M pref viz se fs =
      ([], .configError (missingMsg (missingVars env requiredVars))) := by
  simp only [run_benchmarks_main, ensure_env_vars, if_neg h]

/-- C3: when required configuration values are missing, `run_benchmarks.py`
terminates before any command execution (empty attempt trace) with a nonzero
exit status; the missing list contains every unset required name, and the one
message spells each of them out. -/
theorem config_error_lists_all (env : String → Option String) (exec : Nat → Nat → Int)
    (R M : Nat) (pref : String) (viz se : Bool) (fs : String → Json)
    (h : missingVars env requiredVars ≠ []) :
    run_benchmarks_main env exec R M pref viz se fs =
      ([], .configError (missingMsg (missingVars env requiredVars))) ∧
    orchExitCode (.configError (missingMsg (missingVars env requiredVars))) ≠ 0 ∧
    (∀ v ∈ requiredVars, (env v).getD "" = "" → v ∈ missingVars env requiredVars) ∧
    ∀ v ∈ missingVars env requiredVars,
      ∃ p q, missingMsg (missingVars env requiredVars) = p ++ v ++ q := by
  refine ⟨main_config_error env exec R M pref viz se fs h, by simp [orchExitCode], ?_, ?_⟩
  · intro v hv h0
    simp [missingVars, List.mem_filter, hv, h0]
  · intro v hv
    obtain ⟨p, q, hpq⟩ := joinSep_split ", " (missingVars env requiredVars) v hv
    refine ⟨"Missing required environment variable(s): " ++ p,
      q ++ ".\n" ++ "Set them before running this script, e.g.\n" ++
        "  export OPENCODE_API_KEY=...\n" ++ "  export GITHUB_TOKEN=...\n", ?_⟩
    simp [missingMsg, hpq, String.append_assoc]

/-- Witness for C3: both required variables unset. -/
theorem config_error_lists_all_witness :
    run_benchmarks_main (fun _ => none) (fun _ _ => 0) 2 2 "bench" false false
        (fun _ => Json.null) =
      ([], .configError (missingMsg (missingVars (fun _ => none) requiredVars))) ∧
    orchExitCode (.configError (missingMsg (missingVars (fun _ => none) requiredVars))) ≠ 0 ∧
    (∀ v ∈ requiredVars, ((fun (_ : String) => (none : Option String)) v).getD "" = "" →
      v ∈ missingVars (fun _ => none) requiredVars) ∧
    (∀ v ∈ missingVars (fun _ => none) requiredVars,
      ∃ p q, missingMsg (missingVars (fun _ => none) requiredVars) = p ++ v ++ q) :=
  config_error_lists_all (fun _ => none) (fun _ _ => 0) 2 2 "bench" false false
    (fun _ => Json.null) (by decide)

/-- When every requested run eventually succeeds within the bound, the run
loop ends in the `.ok` state. -/
theorem orchestrate_ok_of_all_succeed (exec : Nat → Nat → Int) (M : Nat) (pref : String)
    (R : Nat) (hall : ∀ j, 1 ≤ j → j ≤ R → ∃ a, 1 ≤ a ∧ a ≤ M ∧ exec j a = 0) :
    ∃ tr files, orchestrate exec M pref (List.range' 1 R) [] = (tr, .ok files) := by
  obtain ⟨tr₁, acc₂, _, heq⟩ := orchestrate_append exec M pref (List.range' 1 R) [] []
    (by
      intro j hj
      rw [List.mem_range'_1] at hj
      obtain ⟨a, h1, h2, h0⟩ := hall j hj.1 (by omega)
      exact ⟨a, by rw [List.mem_range'_1]; omega, h0⟩)
  rw [List.append_nil] at heq
  refine ⟨tr₁, acc₂, ?_⟩
  rw [heq]
  simp [orchestrate]

/-- C9 (amended): the orchestrator CLI exits 0 on full success — including
when the enabled reporting step's subprocess fails (for instance on an empty
dataset), that failure being only printed with the subprocess exit code
recorded; on exhausted retries it exits with the final failed attempt's
nonzero code; on missing configuration it exits 1 carrying the message that
enumerates the missing names. -/
theorem cli_exit_codes (exec : Nat → Nat → Int) (R M : Nat) (pref : String)
    (viz se : Bool) (fs : String → Json) (hM : 1 ≤ M) :
    (∀ env : String → Option String, missingVars env requiredVars ≠ [] →
      (run_benchmarks_main env exec R M pref viz se fs).2 =
        .configError (missingMsg (missingVars env requiredVars)) ∧
      orchExitCode (run_benchmarks_main env exec R M pref viz se fs).2 = 1) ∧
    (∀ env : String → Option String, missingVars env requiredVars = [] →
      (∀ j, 1 ≤ j → j ≤ R → ∃ a, 1 ≤ a ∧ a ≤ M ∧ exec j a = 0) →
      orchExitCode (run_benchmarks_main env exec R M pref viz se fs).2 = 0) ∧
    (∀ (env : String → Option String) (i : Nat), missingVars env requiredVars = [] →
      1 ≤ i → i ≤ R →
      (∀ j, 1 ≤ j → j < i → ∃ a, 1 ≤ a ∧ a ≤ M ∧ exec j a = 0) →
      (∀ a, 1 ≤ a → a ≤ M → exec i a ≠ 0) →
      orchExitCode (run_benchmarks_main env exec R M pref viz se fs).2 = exec i M ∧
      exec i M ≠ 0) := by
  refine ⟨?_, ?_, ?_⟩
  · intro env h
    rw [main_config_error env exec R M pref viz se fs h]
    exact ⟨rfl, rfl⟩
  · intro env henv hall
    obtain ⟨tr, files, heq⟩ := orchestrate_ok_of_all_succeed exec M pref R hall
    simp only [run_benchmarks_main, ensure_env_vars, henv, if_pos]
    rw [heq]
    cases hv : viz && se <;> simp [hv, orchExitCode]
  · intro env i henv hi1 hiR hearlier hfail
    obtain ⟨tr, files, hmain, _, _⟩ :=
      main_exhausted_at env exec R M i pref viz se fs henv hM hi1 hiR hearlier hfail
    rw [hmain]
    exact ⟨rfl, hfail M hM (le_refl M)⟩

/-- Counterexample for C9 as stated: configuration present, the single run
succeeding (R = M = 1), reporting enabled with the script present, and the
generated artifact containing an empty "runs" array.  The reporting
subprocess fails on the empty dataset (exit 1), yet the orchestrator itself
exits 0 rather than nonzero. -/
theorem cli_exit_nonzero_on_empty_dataset_refuted :
    run_benchmarks_main (fun _ => some "x") (fun _ _ => 0) 1 1 "b" true true
        (fun _ => Json.obj [("runs", Json.arr [])]) =
      ([⟨1, 1, 0⟩], .completed ["b-1.json"] (some 1)) ∧
    orchExitCode (run_benchmarks_main (fun _ => some "x") (fun _ _ => 0) 1 1 "b" true true
        (fun _ => Json.obj [("runs", Json.arr [])])).2 = 0 ∧
    vizMain [("b-1.json", Json.obj [("runs", Json.arr [])])] =
      .emptyDataset "No runs found in the provided files." ∧
    vizExitCode (vizMain [("b-1.json", Json.obj [("runs", Json.arr [])])]) ≠ 0 := by
  exact ⟨by decide, by decide, by decide, by decide⟩

/-- Witness for C9's amended theorem: a single always-succeeding run under
bound one, reporting disabled. -/
theorem cli_exit_codes_witness :
    (∀ env : String → Option String, missingVars env requiredVars ≠ [] →
      (run_benchmarks_main env (fun _ _ => 0) 1 1 "b" false false (fun _ => Json.null)).2 =
        .configError (missingMsg (missingVars env requiredVars)) ∧
      orchExitCode (run_benchmarks_main env (fun _ _ => 0) 1 1 "b" false false
        (fun _ => Json.null)).2 = 1) ∧
    (∀ env : String → Option String, missingVars env requiredVars = [] →
      (∀ j, 1 ≤ j → j ≤ 1 → ∃ a, 1 ≤ a ∧ a ≤ 1 ∧ (0:Int) = 0) →
      orchExitCode (run_benchmarks_main env (fun _ _ => 0) 1 1 "b" false false
        (fun _ => Json.null)).2 = 0) ∧
    (∀ (env : String → Option String) (i : Nat), missingVars env requiredVars = [] →
      1 ≤ i → i ≤ 1 →
      (∀ j, 1 ≤ j → j < i → ∃ a, 1 ≤ a ∧ a ≤ 1 ∧ (0:Int) = 0) →
      (∀ a, 1 ≤ a → a ≤ 1 → (0:Int) ≠ 0) →
      orchExitCode (run_benchmarks_main env (fun _ _ => 0) 1 1 "b" false false
        (fun _ => Json.null)).2 = 0 ∧ (0:Int) ≠ 0) :=
  cli_exit_codes (fun _ _ => 0) 1 1 "b" false false (fun _ => Json.null) (by decide)

/-- Bool check: `pat` occurs as a contiguous block inside `s`. -/
def occursB (pat s : List Char) : Bool :=
  (List.range (s.length + 1)).any fun i => (s.drop i).take pat.length == pat

/-- A string built around `pat` contains `pat` as a contiguous block. -/
theorem occursB_of_split (pat s p q : String) (h : s = p ++ pat ++ q) :
    occursB pat.data s.data = true := by
  subst h
  rw [occursB, List.any_eq_true]
  refine ⟨p.data.length, ?_, ?_⟩
  · rw [List.mem_range]
    simp only [String.data_append, List.length_append]
    omega
  · have hd : (p ++ pat ++ q).data = p.data ++ (pat.data ++ q.data) := by
      simp [String.data_append]
    rw [hd, List.drop_left, List.take_left]
    simp

/-- Contrapositive used on concrete strings: a failed `occursB` check rules
out every decomposition. -/
theorem not_split_of_occursB_false (pat s : String)
    (h : occursB pat.data s.data = false) : ¬ ∃ p q : String, s = p ++ pat ++ q := by
  rintro ⟨p, q, hs⟩
  have htrue := occursB_of_split pat s p q hs
  rw [h] at htrue
  cases htrue

/-- An artifact whose single run lacks the "scores" key. -/
def badScoresRun : Json :=
  Json.obj [("model", .str "gpt"), ("summary", .obj [("finalScore", .num 1)])]

/-- The artifact wrapping `badScoresRun`. -/
def badArtifact : Json := Json.obj [("runs", .arr [badScoresRun])]

/-- Counterexample for C4 as stated: loading `b.json`, whose run element has
no "scores" key, fails with `KeyError` on "scores"; the resulting message
names the missing field but nowhere names the artifact `b.json`, so the
error does not identify the artifact. -/
theorem parse_error_lacks_artifact_name :
    load_runs [("b.json", badArtifact)] = .error (.keyError "scores") ∧
    (∃ p q, errMessage (.keyError "scores") = p ++ "scores" ++ q) ∧
    ¬ ∃ p q : String, errMessage (.keyError "scores") = p ++ "b.json" ++ q := by
  refine ⟨by decide, ⟨"KeyError: ", "", ?_⟩, not_split_of_occursB_false _ _ (by decide)⟩
  rw [String.append_empty]
  rfl

/-- Helper for C4: a failing artifact anywhere in the list makes the whole
load return its error, provided the artifacts before it load cleanly. -/
theorem load_runs_error_prop (e : JErr) :
    ∀ (pre : List (String × Json)), (∀ f ∈ pre, ∃ recs, loadFile f = .ok recs) →
      ∀ (name : String) (content : Json) (post : List (String × Json)),
        loadFile (name, content) = .error e →
        load_runs (pre ++ (name, content) :: post) = .error e := by
  intro pre
  induction pre with
  | nil =>
    intro _ name content post hbad
    simp [load_runs, hbad]
  | cons f rest ih =>
    intro hpre name content post hbad
    obtain ⟨recs, hf⟩ := hpre f (by simp)
    simp only [List.cons_append, load_runs, hf, List.append_eq]
    rw [ih (fun g hg => hpre g (by simp [hg])) name content post hbad]

/-- C4 (amended): when some artifact's run or score element is missing a
required key, the load fails with the `KeyError` for that field — so the
error identifies the missing field (its name appears in the message), though
not the artifact — and the whole load emits no record at all. -/
theorem loader_fails_atomically (pre post : List (String × Json))
    (name : String) (content : Json) (k : String)
    (hpre : ∀ f ∈ pre, ∃ recs, loadFile f = .ok recs)
    (hbad : loadFile (name, content) = .error (.keyError k)) :
    load_runs (pre ++ (name, content) :: post) = .error (.keyError k) ∧
    (∀ recs, load_runs (pre ++ (name, content) :: post) ≠ .ok recs) ∧
    ∃ p q, errMessage (.keyError k) = p ++ k ++ q := by
  have h1 := load_runs_error_prop (.keyError k) pre hpre name content post hbad
  refine ⟨h1, ?_, ⟨"KeyError: ", "", ?_⟩⟩
  · intro recs hrecs
    rw [h1] at hrecs
    cases hrecs
  · rw [String.append_empty]
    rfl

/-- Witness for C4's amended theorem: a clean artifact followed by `b.json`
missing the "scores" key. -/
theorem loader_fails_atomically_witness :
    load_runs ([("a.json", Json.obj [("runs", Json.arr [])])] ++
        ("b.json", badArtifact) :: []) = .error (.keyError "scores") ∧
    (∀ recs, load_runs ([("a.json", Json.obj [("runs", Json.arr [])])] ++
        ("b.json", badArtifact) :: []) ≠ .ok recs) ∧
    (∃ p q, errMessage (.keyError "scores") = p ++ "scores" ++ q) :=
  loader_fails_atomically [("a.json", Json.obj [("runs", Json.arr [])])] []
    "b.json" badArtifact "scores"
    (by intro f hf; rw [List.mem_singleton] at hf; exact ⟨[], by rw [hf]; decide⟩)
    (by decide)

/-- C5: when loading yields zero run records (empty artifact list, or every
"runs" array empty), the reporter pipeline stops with the EmptyDataset
`SystemExit` — its own descriptive message and a nonzero exit — a condition
distinct from a parse failure, and nothing reaches the plotting sink. -/
theorem empty_dataset_failure (files : List (String × Json))
    (h : load_runs files = .ok []) :
    vizMain files = .emptyDataset "No runs found in the provided files." ∧
    vizExitCode (vizMain files) = 1 ∧
    vizExitCode (vizMain files) ≠ 0 ∧
    (∀ e, vizMain files ≠ .parseFailure e) ∧
    (∀ df, vizMain files ≠ .success df) := by
  have hm : vizMain files = .emptyDataset "No runs found in the provided files." := by
    simp [vizMain, h, melt_scores]
  refine ⟨hm, by rw [hm]; rfl, by rw [hm]; simp [vizExitCode], ?_, ?_⟩
  · intro e he
    rw [hm] at he
    cases he
  · intro df hdf
    rw [hm] at hdf
    cases hdf

/-- Witness for C5: a single artifact with an empty "runs" array. -/
theorem empty_dataset_failure_witness :
    vizMain [("a.json", Json.obj [("runs", Json.arr [])])] =
      .emptyDataset "No runs found in the provided files." ∧
    vizExitCode (vizMain [("a.json", Json.obj [("runs", Json.arr [])])]) = 1 ∧
    vizExitCode (vizMain [("a.json", Json.obj [("runs", Json.arr [])])]) ≠ 0 ∧
    (∀ e, vizMain [("a.json", Json.obj [("runs", Json.arr [])])] ≠ .parseFailure e) ∧
    (∀ df, vizMain [("a.json", Json.obj [("runs", Json.arr [])])] ≠ .success df) :=
  empty_dataset_failure [("a.json", Json.obj [("runs", Json.arr [])])] (by decide)

/-- C6: the long-form dataset has exactly one row per (run record, scores
entry) pair — the total count is the sum of the scores-dict sizes, nothing
dropped or duplicated — and each row carries the agent, source file,
assignment name, averageScore and finalScore of its originating pair. -/
theorem melt_count_and_fields (runs : List RunRecord) :
    (melt_scores runs).length = (runs.map fun r => r.scores.length).sum ∧
    ∀ rec ∈ melt_scores runs, ∃ r ∈ runs, ∃ p ∈ r.scores,
      rec = ⟨r.agent, r.file, p.1, p.2, r.finalScore⟩ := by
  constructor
  · rw [melt_scores, List.length_flatMap]
    congr 1
    apply List.map_congr_left
    intro r _
    simp [Function.comp]
  · intro rec hrec
    rw [melt_scores, List.mem_flatMap] at hrec
    obtain ⟨r, hr, hrec⟩ := hrec
    rw [List.mem_map] at hrec
    obtain ⟨p, hp, rfl⟩ := hrec
    exact ⟨r, hr, p, hp, rfl⟩

/-- Two loaded records over three score entries. -/
def demoRunRecords : List RunRecord :=
  [⟨"a.json", 0, "gpt", 1, [("lint", 1), ("test", 0)]⟩,
   ⟨"b.json", 0, "gpt", 0, [("lint", 1)]⟩]

/-- Witness for C6 on `demoRunRecords`. -/
theorem melt_count_and_fields_witness :
    (melt_scores demoRunRecords).length =
      (demoRunRecords.map fun r => r.scores.length).sum ∧
    ∃ r ∈ demoRunRecords, ∃ p ∈ r.scores,
      (⟨"gpt", "a.json", "lint", 1, 1⟩ : LongRecord) =
        ⟨r.agent, r.file, p.1, p.2, r.finalScore⟩ :=
  ⟨(melt_count_and_fields demoRunRecords).1,
   (melt_count_and_fields demoRunRecords).2 ⟨"gpt", "a.json", "lint", 1, 1⟩ (by decide)⟩

/-- Key list of a Python dict modelled as an association list. -/
def keysOf (d : List (String × ℚ)) : List String := d.map Prod.fst

/-- One dict assignment only adds its key when the key is new. -/
theorem keysOf_dictInsert (d : List (String × ℚ)) (k : String) (v : ℚ) :
    keysOf (dictInsert d k v) = if k ∈ keysOf d then keysOf d else keysOf d ++ [k] := by
  by_cases h : (d.any fun p => p.1 == k) = true
  · have hk : k ∈ keysOf d := by
      rw [List.any_eq_true] at h
      obtain ⟨p, hp, hpk⟩ := h
      rw [beq_iff_eq] at hpk
      exact hpk ▸ List.mem_map.2 ⟨p, hp, rfl⟩
    rw [dictInsert, if_pos h, if_pos hk, keysOf, List.map_map, keysOf]
    apply List.map_congr_left
    intro p _
    by_cases hpk : (p.1 == k) = true
    · rw [beq_iff_eq] at hpk
      simp [Function.comp, hpk]
    · simp [Function.comp, hpk]
  · have hk : k ∉ keysOf d := by
      intro hmem
      obtain ⟨p, hp, hpk⟩ := List.mem_map.1 hmem
      exact h (List.any_eq_true.2 ⟨p, hp, beq_iff_eq.2 hpk⟩)
    rw [dictInsert, if_neg h, if_neg hk, keysOf, List.map_append, keysOf]
    rfl

/-- The key-level effect of one dict assignment. -/
def insertNewKey (ks : List String) (k : String) : List String :=
  if k ∈ ks then ks else ks ++ [k]

/-- Folding dict assignments acts on keys as folding `insertNewKey`. -/
theorem keysOf_foldl (entries : List (String × ℚ)) :
    ∀ d, keysOf (entries.foldl (fun d p => dictInsert d p.1 p.2) d) =
      entries.foldl (fun ks p => insertNewKey ks p.1) (keysOf d) := by
  induction entries with
  | nil => intro d; rfl
  | cons p rest ih =>
    intro d
    rw [List.foldl_cons, List.foldl_cons, ih, keysOf_dictInsert]
    rfl

/-- `insertNewKey` folding preserves key distinctness. -/
theorem insertNewKey_fold_nodup (names : List String) :
    ∀ ks, ks.Nodup → (names.foldl insertNewKey ks).Nodup := by
  induction names with
  | nil => intro ks h; exact h
  | cons n rest ih =>
    intro ks h
    rw [List.foldl_cons]
    apply ih
    rw [insertNewKey]
    by_cases hn : n ∈ ks
    · rw [if_pos hn]; exact h
    · rw [if_neg hn, List.nodup_append]
      exact ⟨h, List.nodup_singleton n, fun a ha hb => hn (List.mem_singleton.1 hb ▸ ha)⟩

/-- `insertNewKey` folding introduces no key that was not inserted. -/
theorem insertNewKey_fold_subset (names : List String) :
    ∀ ks x, x ∈ names.foldl insertNewKey ks → x ∈ ks ∨ x ∈ names := by
  induction names with
  | nil => intro ks x h; exact Or.inl h
  | cons n rest ih =>
    intro ks x h
    rw [List.foldl_cons] at h
    rcases ih (insertNewKey ks n) x h with h1 | h1
    · rw [insertNewKey] at h1
      by_cases hn : n ∈ ks
      · rw [if_pos hn] at h1; exact Or.inl h1
      · rw [if_neg hn] at h1
        rcases List.mem_append.1 h1 with h2 | h2
        · exact Or.inl h2
        · exact Or.inr (by simp [List.mem_singleton.1 h2])
    · exact Or.inr (by simp [h1])

/-- A list with a repeated element has strictly fewer distinct elements than
entries. -/
theorem toFinset_card_lt_of_not_nodup {α : Type} [DecidableEq α] :
    ∀ l : List α, ¬ l.Nodup → l.toFinset.card < l.length := by
  intro l
  induction l with
  | nil => intro h; exact absurd List.nodup_nil h
  | cons x xs ih =>
    intro h
    rw [List.toFinset_cons, List.length_cons]
    by_cases hx : x ∈ xs
    · have hcard : insert x xs.toFinset = xs.toFinset :=
        Finset.insert_eq_self.2 (List.mem_toFinset.2 hx)
      rw [hcard]
      exact Nat.lt_succ_of_le (List.toFinset_card_le xs)
    · have hxs : ¬ xs.Nodup := fun hnd => h (List.nodup_cons.2 ⟨hx, hnd⟩)
      calc (insert x xs.toFinset).card
          ≤ xs.toFinset.card + 1 := Finset.card_insert_le _ _
        _ < xs.length + 1 := Nat.succ_lt_succ (ih hxs)

/-- When the entry names repeat, the built dict is strictly smaller than the
entry list. -/
theorem buildScores_length_lt (entries : List (String × ℚ))
    (hdup : ¬ (entries.map Prod.fst).Nodup) :
    (buildScores entries).length < entries.length := by
  have h1 : keysOf (buildScores entries) =
      (entries.map Prod.fst).foldl insertNewKey [] := by
    rw [buildScores, keysOf_foldl entries [], List.foldl_map]
    rfl
  have hnodup : (keysOf (buildScores entries)).Nodup := by
    rw [h1]; exact insertNewKey_fold_nodup (entries.map Prod.fst) [] List.nodup_nil
  have hsub : ∀ x ∈ keysOf (buildScores entries), x ∈ entries.map Prod.fst := by
    intro x hx
    rw [h1] at hx
    rcases insertNewKey_fold_subset (entries.map Prod.fst) [] x hx with h2 | h2
    · exact absurd h2 (List.not_mem_nil x)
    · exact h2
  have hlen : (buildScores entries).length = (keysOf (buildScores entries)).length := by
    rw [keysOf, List.length_map]
  rw [hlen, ← List.toFinset_card_of_nodup hnodup]
  have hsubset : (keysOf (buildScores entries)).toFinset ⊆ (entries.map Prod.fst).toFinset :=
    fun x hx => List.mem_toFinset.2 (hsub x (List.mem_toFinset.1 hx))
  calc (keysOf (buildScores entries)).toFinset.card
      ≤ (entries.map Prod.fst).toFinset.card := Finset.card_le_card hsubset
    _ < (entries.map Prod.fst).length :=
        toFinset_card_lt_of_not_nodup (entries.map Prod.fst) hdup
    _ = entries.length := List.length_map entries Prod.fst

/-- Overwriting the first matching pair makes lookup of the overwritten key
return the new value. -/
theorem lookup_overwrite (k : String) (v : ℚ) :
    ∀ d : List (String × ℚ), (d.any fun p => p.1 == k) = true →
      (d.map fun p => if p.1 == k then (k, v) else p).lookup k = some v := by
  intro d
  induction d with
  | nil => intro h; cases h
  | cons p rest ih =>
    obtain ⟨pk, pv⟩ := p
    intro h
    by_cases hp : (pk == k) = true
    · rw [List.map_cons,
        show (if (((pk, pv) : String × ℚ).1 == k) = true then (k, v) else (pk, pv)) = (k, v)
          by simp [hp],
        show ∀ l : List (String × ℚ), List.lookup k ((k, v) :: l) = some v
          from fun l => by simp [List.lookup]]
    · have hp' : (pk == k) = false := Bool.not_eq_true _ ▸ hp
      have hrest : (rest.any fun p => p.1 == k) = true := by
        rw [List.any_cons] at h
        simp only [hp', Bool.false_or] at h
        exact h
      have hk : (k == pk) = false := by
        rw [beq_eq_false_iff_ne] at hp' ⊢
        exact fun he => hp' he.symm
      rw [List.map_cons,
        show (if (((pk, pv) : String × ℚ).1 == k) = true then (k, v) else (pk, pv)) = (pk, pv)
          by simp [hp'],
        show ∀ l : List (String × ℚ), List.lookup k ((pk, pv) :: l) = List.lookup k l
          from fun l => by simp [List.lookup, hk]]
      exact ih hrest

/-- Appending a fresh key makes lookup of that key return its value. -/
theorem lookup_append_single (k : String) (v : ℚ) :
    ∀ d : List (String × ℚ), (d.any fun p => p.1 == k) = false →
      (d ++ [(k, v)]).lookup k = some v := by
  intro d
  induction d with
  | nil => intro _; simp [List.lookup]
  | cons p rest ih =>
    intro h
    rw [List.any_cons] at h
    have hp : (p.1 == k) = false := by
      cases hcase : (p.1 == k) <;> simp [hcase] at h ⊢
    have hrest : (rest.any fun p => p.1 == k) = false := by
      cases hcase : rest.any fun p => p.1 == k
      · rfl
      · rw [hp, hcase] at h; cases h
    rw [List.cons_append, List.lookup]
    have hk : (k == p.1) = false := by
      rw [beq_eq_false_iff_ne]
      rw [beq_eq_false_iff_ne] at hp
      exact fun he => hp he.symm
    rw [hk]
    exact ih hrest

/-- `d[k] = v` makes `d.lookup k` return `v`. -/
theorem lookup_dictInsert_self (k : String) (v : ℚ) (d : List (String × ℚ)) :
    (dictInsert d k v).lookup k = some v := by
  by_cases h : (d.any fun p => p.1 == k) = true
  · rw [dictInsert, if_pos h]
    exact lookup_overwrite k v d h
  · have h' : (d.any fun p => p.1 == k) = false := Bool.not_eq_true _ ▸ h
    rw [dictInsert, if_neg h]
    exact lookup_append_single k v d h'

/-- The overwrite branch leaves lookups of other keys unchanged. -/
theorem lookup_map_overwrite_other (k k' : String) (v : ℚ) (hne : k' ≠ k) :
    ∀ d : List (String × ℚ),
      (d.map fun p => if p.1 == k then (k, v) else p).lookup k' = d.lookup k' := by
  intro d
  induction d with
  | nil => rfl
  | cons p rest ih =>
    obtain ⟨pk, pv⟩ := p
    by_cases hp : (pk == k) = true
    · have hpk : pk = k := beq_iff_eq.1 hp
      have h1 : (k' == k) = false := beq_eq_false_iff_ne.2 hne
      have h2 : (k' == pk) = false := beq_eq_false_iff_ne.2 (hpk ▸ hne)
      rw [List.map_cons,
        show (if (((pk, pv) : String × ℚ).1 == k) = true then (k, v) else (pk, pv)) = (k, v)
          by simp [hp],
        show ∀ l : List (String × ℚ), List.lookup k' ((k, v) :: l) = List.lookup k' l
          from fun l => by simp [List.lookup, h1],
        show List.lookup k' ((pk, pv) :: rest) = List.lookup k' rest
          by simp [List.lookup, h2]]
      exact ih
    · have hp' : (pk == k) = false := Bool.not_eq_true _ ▸ hp
      rw [List.map_cons,
        show (if (((pk, pv) : String × ℚ).1 == k) = true then (k, v) else (pk, pv)) = (pk, pv)
          by simp [hp']]
      cases hk : k' == pk
      · rw [show ∀ l : List (String × ℚ), List.lookup k' ((pk, pv) :: l) = List.lookup k' l
            from fun l => by simp [List.lookup, hk]]
        rw [show ∀ l : List (String × ℚ), List.lookup k' ((pk, pv) :: l) = List.lookup k' l
            from fun l => by simp [List.lookup, hk]]
        exact ih
      · rw [show ∀ l : List (String × ℚ), List.lookup k' ((pk, pv) :: l) = some pv
            from fun l => by simp [List.lookup, hk]]
        rw [show ∀ l : List (String × ℚ), List.lookup k' ((pk, pv) :: l) = some pv
            from fun l => by simp [List.lookup, hk]]

/-- The append branch leaves lookups of other keys unchanged. -/
theorem lookup_append_single_other (k k' : String) (v : ℚ) (hne : k' ≠ k) :
    ∀ d : List (String × ℚ), (d ++ [(k, v)]).lookup k' = d.lookup k' := by
  intro d
  induction d with
  | nil => simp [List.lookup, beq_eq_false_iff_ne.2 hne]
  | cons p rest ih =>
    rw [List.cons_append, List.lookup, List.lookup]
    cases hk : k' == p.1
    · exact ih
    · rfl

/-- `d[k] = v` leaves every other key's lookup unchanged. -/
theorem lookup_dictInsert_other (k k' : String) (v : ℚ) (hne : k' ≠ k)
    (d : List (String × ℚ)) :
    (dictInsert d k v).lookup k' = d.lookup k' := by
  by_cases h : (d.any fun p => p.1 == k) = true
  · rw [dictInsert, if_pos h]
    exact lookup_map_overwrite_other k k' v hne d
  · rw [dictInsert, if_neg h]
    exact lookup_append_single_other k k' v hne d

/-- Inserting entries whose keys all differ from `k` never changes what `k`
looks up to. -/
theorem lookup_foldl_preserved (k : String) :
    ∀ (l : List (String × ℚ)), (∀ p ∈ l, p.1 ≠ k) →
      ∀ d, (l.foldl (fun d p => dictInsert d p.1 p.2) d).lookup k = d.lookup k := by
  intro l
  induction l with
  | nil => intro _ d; rfl
  | cons p rest ih =>
    intro h d
    rw [List.foldl_cons, ih (fun q hq => h q (by simp [hq]))]
    exact lookup_dictInsert_other p.1 k p.2 (Ne.symm (h p (by simp))) d

/-- The comprehension keeps the value of the last occurrence of a repeated
key. -/
theorem buildScores_last_value (l₁ : List (String × ℚ)) (k : String) (v : ℚ)
    (l₂ : List (String × ℚ)) (h2 : ∀ p ∈ l₂, p.1 ≠ k) :
    (buildScores (l₁ ++ (k, v) :: l₂)).lookup k = some v := by
  rw [buildScores, List.foldl_append, List.foldl_cons]
  rw [lookup_foldl_preserved k l₂ h2]
  exact lookup_dictInsert_self k v _

/-- The score comprehension yields one pair per well-parsed array element. -/
theorem parseScores_length :
    ∀ (sj : List Json) (entries : List (String × ℚ)),
      parseScores sj = .ok entries → entries.length = sj.length := by
  intro sj
  induction sj with
  | nil =>
    intro entries h
    rw [parseScores] at h
    cases h
    rfl
  | cons s rest ih =>
    intro entries h
    rw [parseScores] at h
    cases hs : parseScore s with
    | error e => rw [hs] at h; cases h
    | ok p =>
      rw [hs] at h
      cases hrest : parseScores rest with
      | error e => rw [hrest] at h; cases h
      | ok ps =>
        rw [hrest] at h
        cases h
        rw [List.length_cons, List.length_cons, ih ps hrest]

/-- C10: a run element whose scores array repeats an assignment name still
loads without any error; the scores dict keeps only the last value written
for each repeated name, and ends up strictly smaller than the scores array. -/
theorem duplicate_assignment_names_keep_last (file : String) (idx : Nat)
    (agent : String) (fscore : ℚ) (scoresArr : List Json)
    (entries : List (String × ℚ))
    (hp : parseScores scoresArr = .ok entries)
    (hdup : ¬ (entries.map Prod.fst).Nodup) :
    parseRun file idx (Json.obj [("model", .str agent),
        ("summary", Json.obj [("finalScore", .num fscore)]),
        ("scores", .arr scoresArr)]) =
      .ok ⟨file, idx, agent, fscore, buildScores entries⟩ ∧
    entries.length = scoresArr.length ∧
    (buildScores entries).length < scoresArr.length ∧
    ∀ l₁ k v l₂, entries = l₁ ++ (k, v) :: l₂ → (∀ p ∈ l₂, p.1 ≠ k) →
      (buildScores entries).lookup k = some v := by
  have hlen := parseScores_length scoresArr entries hp
  refine ⟨?_, hlen, ?_, ?_⟩
  · have hred : parseRun file idx (Json.obj [("model", .str agent),
        ("summary", Json.obj [("finalScore", .num fscore)]),
        ("scores", .arr scoresArr)]) =
        match parseScores scoresArr with
        | .error e => .error e
        | .ok entries => .ok ⟨file, idx, agent, fscore, buildScores entries⟩ := rfl
    rw [hred, hp]
  · rw [← hlen]
    exact buildScores_length_lt entries hdup
  · intro l₁ k v l₂ he h2
    rw [he]
    exact buildScores_last_value l₁ k v l₂ h2

/-- A scores array repeating the assignment name "lint". -/
def dupScoresArr : List Json :=
  [Json.obj [("assignment", Json.obj [("name", Json.str "lint")]), ("averageScore", Json.num 1)],
   Json.obj [("assignment", Json.obj [("name", Json.str "lint")]), ("averageScore", Json.num 0)]]

/-- Witness for C10: "lint" scored twice; the dict keeps the later value 0
and has one entry against the array's two. -/
theorem duplicate_assignment_names_keep_last_witness :
    parseRun "a.json" 0 (Json.obj [("model", .str "gpt"),
        ("summary", Json.obj [("finalScore", .num 1)]),
        ("scores", .arr dupScoresArr)]) =
      .ok ⟨"a.json", 0, "gpt", 1, buildScores [("lint", 1), ("lint", 0)]⟩ ∧
    ([("lint", (1:ℚ)), ("lint", 0)] : List (String × ℚ)).length = dupScoresArr.length ∧
    (buildScores [("lint", 1), ("lint", 0)]).length < dupScoresArr.length ∧
    (∀ l₁ k v l₂, ([("lint", (1:ℚ)), ("lint", 0)] : List (String × ℚ)) = l₁ ++ (k, v) :: l₂ →
      (∀ p ∈ l₂, p.1 ≠ k) →
      (buildScores [("lint", 1), ("lint", 0)]).lookup k = some v) :=
  duplicate_assignment_names_keep_last "a.json" 0 "gpt" 1 dupScoresArr
    [("lint", 1), ("lint", 0)] (by decide) (by decide)

/-- Inserting into a list is a permutation of consing. -/
theorem perm_insertByKey {α : Type} (key : α → String) (x : α) :
    ∀ l : List α, (insertByKey key x l).Perm (x :: l) := by
  intro l
  induction l with
  | nil => exact List.Perm.refl [x]
  | cons y ys ih =>
    rw [insertByKey]
    by_cases h : key x ≤ key y
    · rw [if_pos h]
    · rw [if_neg h]
      exact (List.Perm.cons y ih).trans (List.Perm.swap x y ys)

/-- The key sort permutes its input. -/
theorem perm_sortByKey {α : Type} (key : α → String) :
    ∀ l : List α, (sortByKey key l).Perm l := by
  intro l
  induction l with
  | nil => exact List.Perm.refl []
  | cons x xs ih =>
    rw [sortByKey]
    exact (perm_insertByKey key x _).trans (List.Perm.cons x ih)

/-- Insertion keeps the list sorted by key. -/
theorem pairwise_insertByKey {α : Type} (key : α → String) (x : α) :
    ∀ l : List α, l.Pairwise (fun a b => key a ≤ key b) →
      (insertByKey key x l).Pairwise (fun a b => key a ≤ key b) := by
  intro l
  induction l with
  | nil => intro _; exact List.pairwise_singleton _ x
  | cons y ys ih =>
    intro h
    rw [insertByKey]
    by_cases hxy : key x ≤ key y
    · rw [if_pos hxy]
      refine List.Pairwise.cons ?_ h
      intro b hb
      rcases List.mem_cons.1 hb with rfl | hb
      · exact hxy
      · exact le_trans hxy (List.rel_of_pairwise_cons h hb)
    · rw [if_neg hxy]
      rw [List.pairwise_cons] at h
      rw [List.pairwise_cons]
      refine ⟨?_, ih h.2⟩
      intro b hb
      have hmem := (perm_insertByKey key x ys).mem_iff.1 hb
      rcases List.mem_cons.1 hmem with rfl | hb2
      · exact le_of_not_le hxy
      · exact h.1 b hb2

/-- The key sort sorts. -/
theorem pairwise_sortByKey {α : Type} (key : α → String) :
    ∀ l : List α, (sortByKey key l).Pairwise (fun a b => key a ≤ key b) := by
  intro l
  induction l with
  | nil => exact List.Pairwise.nil
  | cons x xs ih => exact pairwise_insertByKey key x _ ih

/-- First-occurrence dedup keeps exactly the members. -/
theorem mem_dedupFirst {α : Type} [DecidableEq α] (a : α) :
    ∀ l : List α, a ∈ dedupFirst l ↔ a ∈ l := by
  intro l
  induction l with
  | nil => rw [dedupFirst]
  | cons x xs ih =>
    rw [dedupFirst]
    constructor
    · intro h
      rcases List.mem_cons.1 h with rfl | h2
      · simp
      · rw [List.mem_filter, ih] at h2
        exact List.mem_cons.2 (Or.inr h2.1)
    · intro h
      rcases List.mem_cons.1 h with rfl | h2
      · simp
      · by_cases hax : a = x
        · subst hax; simp
        · refine List.mem_cons.2 (Or.inr ?_)
          rw [List.mem_filter, ih]
          exact ⟨h2, by simp [bne_iff_ne, hax]⟩

/-- First-occurrence dedup yields a duplicate-free list. -/
theorem nodup_dedupFirst {α : Type} [DecidableEq α] :
    ∀ l : List α, (dedupFirst l).Nodup := by
  intro l
  induction l with
  | nil => rw [dedupFirst]; exact List.nodup_nil
  | cons x xs ih =>
    rw [dedupFirst, List.nodup_cons]
    refine ⟨?_, List.Nodup.filter _ ih⟩
    intro hx
    rw [List.mem_filter] at hx
    simp [bne_iff_ne] at hx

/-- A sorted-unique view: ordered by key, duplicate-free, same members. -/
theorem sortedUnique_spec {α : Type} [DecidableEq α] (key : α → String) (l : List α) :
    (sortByKey key (dedupFirst l)).Pairwise (fun a b => key a ≤ key b) ∧
    (sortByKey key (dedupFirst l)).Nodup ∧
    ∀ x, x ∈ sortByKey key (dedupFirst l) ↔ x ∈ l := by
  refine ⟨pairwise_sortByKey key _, ?_, ?_⟩
  · exact (perm_sortByKey key (dedupFirst l)).nodup_iff.2 (nodup_dedupFirst l)
  · intro x
    rw [(perm_sortByKey key (dedupFirst l)).mem_iff, mem_dedupFirst]

/-- C7 (amended): per agent, `plot_instability` produces (1) a final-score
series that keeps one entry per distinct (source, finalScore) pair — not per
distinct source — ordered by source ascending, collapsing to one entry per
source exactly when each source carries a single finalScore for the agent;
and (2) an assignment grid with rows the distinct assignment names sorted
ascending, columns the distinct sources sorted ascending, and each populated
cell the mean averageScore over the records sharing that (assignment, source,
agent) combination; agents themselves are processed in ascending identifier
order, one column block per distinct agent. -/
theorem reporter_views (df : List LongRecord) (a : String) :
    (agentsOf df).Pairwise (· ≤ ·) ∧ (agentsOf df).Nodup ∧
    (∀ x, x ∈ agentsOf df ↔ x ∈ df.map fun l => l.agent) ∧
    ((finalScoreSeries df a).map Prod.fst).Pairwise (· ≤ ·) ∧
    (finalScoreSeries df a).Nodup ∧
    (∀ p, p ∈ finalScoreSeries df a ↔
      p ∈ (agentRows df a).map fun l => (l.file, l.finalScore)) ∧
    (gridRows df a).Pairwise (· ≤ ·) ∧ (gridRows df a).Nodup ∧
    (∀ r, r ∈ gridRows df a ↔ r ∈ (agentRows df a).map fun l => l.assignment) ∧
    (gridCols df a).Pairwise (· ≤ ·) ∧ (gridCols df a).Nodup ∧
    (∀ c, c ∈ gridCols df a ↔ c ∈ (agentRows df a).map fun l => l.file) ∧
    (∀ r c, cellEntries df a r c ≠ [] →
      gridCell df a r c =
        some ((cellEntries df a r c).sum / ((cellEntries df a r c).length : ℚ))) ∧
    ((∀ l1 ∈ agentRows df a, ∀ l2 ∈ agentRows df a, l1.file = l2.file →
        l1.finalScore = l2.finalScore) →
      ((finalScoreSeries df a).map Prod.fst).Nodup) := by
  have hA := sortedUnique_spec (α := String) id (df.map fun l => l.agent)
  have hS := sortedUnique_spec (α := String × ℚ) (fun p => p.1)
    ((agentRows df a).map fun l => (l.file, l.finalScore))
  have hR := sortedUnique_spec (α := String) id ((agentRows df a).map fun l => l.assignment)
  have hC := sortedUnique_spec (α := String) id ((agentRows df a).map fun l => l.file)
  refine ⟨hA.1, hA.2.1, hA.2.2, ?_, hS.2.1, hS.2.2, hR.1, hR.2.1, hR.2.2, hC.1, hC.2.1,
    hC.2.2, ?_, ?_⟩
  · rw [List.pairwise_map]
    exact hS.1
  · intro r c hne
    cases hcell : cellEntries df a r c with
    | nil => exact absurd hcell hne
    | cons q qs => simp only [gridCell, hcell]
  · intro huniq
    refine List.Nodup.map_on ?_ hS.2.1
    intro p hp q hq hpq
    obtain ⟨l1, hl1, hpl⟩ := List.mem_map.1 ((hS.2.2 p).1 hp)
    obtain ⟨l2, hl2, hql⟩ := List.mem_map.1 ((hS.2.2 q).1 hq)
    rw [← hpl, ← hql] at hpq ⊢
    have hfiles : l1.file = l2.file := hpq
    rw [hfiles, huniq l1 hl1 l2 hl2 hfiles]

/-- Artifact with two runs of the same agent carrying different final
scores. -/
def twoRunArtifact : Json :=
  Json.obj [("runs", Json.arr [
    Json.obj [("model", .str "m"), ("summary", Json.obj [("finalScore", .num 1)]),
      ("scores", .arr [Json.obj [("assignment", Json.obj [("name", .str "lint")]),
        ("averageScore", .num 1)]])],
    Json.obj [("model", .str "m"), ("summary", Json.obj [("finalScore", .num 0)]),
      ("scores", .arr [Json.obj [("assignment", Json.obj [("name", .str "lint")]),
        ("averageScore", .num 0)]])]])]

/-- Counterexample for C7 as stated: one artifact, agent "m", two runs with
final scores 1 and 0.  `drop_duplicates` de-duplicates (source, finalScore)
pairs, so the plotted final-score series keeps two entries for the single
distinct source — not one pair per distinct source as claimed. -/
theorem series_two_pairs_one_source :
    ∃ rs, load_runs [("a.json", twoRunArtifact)] = .ok rs ∧
      (finalScoreSeries (melt_scores rs) "m").length = 2 ∧
      (dedupFirst ((agentRows (melt_scores rs) "m").map fun l => l.file)).length = 1 := by
  refine ⟨[⟨"a.json", 0, "m", 1, [("lint", 1)]⟩, ⟨"a.json", 1, "m", 0, [("lint", 0)]⟩],
    by decide, ?_, by decide⟩
  rw [finalScoreSeries,
    List.Perm.length_eq (perm_sortByKey (fun p : String × ℚ => p.1) _)]
  decide

/-- Witness for C7's amended theorem on the dataset of `demoRunRecords`. -/
theorem reporter_views_witness :
    (agentsOf (melt_scores demoRunRecords)).Pairwise (· ≤ ·) ∧
    (agentsOf (melt_scores demoRunRecords)).Nodup ∧
    (∀ x, x ∈ agentsOf (melt_scores demoRunRecords) ↔
      x ∈ (melt_scores demoRunRecords).map fun l => l.agent) ∧
    ((finalScoreSeries (melt_scores demoRunRecords) "gpt").map Prod.fst).Pairwise (· ≤ ·) ∧
    (finalScoreSeries (melt_scores demoRunRecords) "gpt").Nodup ∧
    (∀ p, p ∈ finalScoreSeries (melt_scores demoRunRecords) "gpt" ↔
      p ∈ (agentRows (melt_scores demoRunRecords) "gpt").map
        fun l => (l.file, l.finalScore)) ∧
    (gridRows (melt_scores demoRunRecords) "gpt").Pairwise (· ≤ ·) ∧
    (gridRows (melt_scores demoRunRecords) "gpt").Nodup ∧
    (∀ r, r ∈ gridRows (melt_scores demoRunRecords) "gpt" ↔
      r ∈ (agentRows (melt_scores demoRunRecords) "gpt").map fun l => l.assignment) ∧
    (gridCols (melt_scores demoRunRecords) "gpt").Pairwise (· ≤ ·) ∧
    (gridCols (melt_scores demoRunRecords) "gpt").Nodup ∧
    (∀ c, c ∈ gridCols (melt_scores demoRunRecords) "gpt" ↔
      c ∈ (agentRows (melt_scores demoRunRecords) "gpt").map fun l => l.file) ∧
    (∀ r c, cellEntries (melt_scores demoRunRecords) "gpt" r c ≠ [] →
      gridCell (melt_scores demoRunRecords) "gpt" r c =
        some ((cellEntries (melt_scores demoRunRecords) "gpt" r c).sum /
          ((cellEntries (melt_scores demoRunRecords) "gpt" r c).length : ℚ))) ∧
    ((∀ l1 ∈ agentRows (melt_scores demoRunRecords) "gpt",
        ∀ l2 ∈ agentRows (melt_scores demoRunRecords) "gpt", l1.file = l2.file →
        l1.finalScore = l2.finalScore) →
      ((finalScoreSeries (melt_scores demoRunRecords) "gpt").map Prod.fst).Nodup) :=
  reporter_views (melt_scores demoRunRecords) "gpt"
